import Mathlib

namespace AccBot

/-- Model of the filesystem as seen through the two primitives the program
uses (src/acc-bot.py lines 16-23): listing a directory — returning its entry
names, or nothing when the directory does not exist, in which case the real
call raises — and testing whether a path is a regular file. -/
structure FS where
  listdir : String → Option (List String)
  isfile : String → Bool

/-- Errors arising in the modelled pipeline.  In the Python source these are
the exceptions that can propagate: a missing documents directory raises from
os.listdir (the configuration error the spec names DirectoryNotFoundError),
the embedding service raises RateLimitError (imported on line 12), and the
spec names InvalidSplitConfigError for an overlap that is not smaller than
the chunk size. -/
inductive PipelineError where
  | directoryNotFound
  | invalidSplitConfig
  | rateLimit
  deriving DecidableEq, Repr

/-- Model of os.path.join for the simple relative case the program exercises
(joining a directory name and a bare entry name). -/
def joinPath (dir f : String) : String := dir ++ "/" ++ f

/-- Embedding of discover_documents (src/acc-bot.py lines 16-23): list the
directory and keep, in listing order, the joined paths of the entries that
are regular files.  If the directory does not exist, os.listdir raises. -/
def discover_documents (fs : FS) (dir : String) : Except PipelineError (List String) :=
  match fs.listdir dir with
  | none => .error .directoryNotFound
  | some names =>
      .ok ((names.filter fun f => fs.isfile (joinPath dir f)).map fun f => joinPath dir f)

/-- Embedding of the accumulator loop in read_all_docs (src/acc-bot.py lines
36-38): res starts empty and is extended with the pages of each document in
turn. -/
def read_all_docs_go {α : Type} (load : String → List α) : List String → List α → List α
  | [], res => res
  | d :: ds, res => read_all_docs_go load ds (res ++ load d)

/-- Embedding of read_all_docs (src/acc-bot.py lines 34-39), parametric in the
per-file loader (load_pdf delegates page extraction to PyPDFLoader, modelled
as an abstract pure function from a path to its page list). -/
def read_all_docs {α : Type} (fs : FS) (load : String → List α) (dir : String) :
    Except PipelineError (List α) :=
  match discover_documents fs dir with
  | .error e => .error e
  | .ok docs => .ok (read_all_docs_go load docs [])

/-- A chunk produced by the splitter: the index of the source page record in
the corpus, the start offset of the chunk inside that page's text (the
add_start_index=True option at src/acc-bot.py line 50), and the chunk text
itself. -/
structure Chunk where
  source : Nat
  startOffset : Nat
  text : List Char
  deriving DecidableEq, Repr

/-- Modelled from the spec: the per-page chunking walk of the Corpus Splitter.
The splitting itself is performed by the external langchain
RecursiveCharacterTextSplitter (constructed at src/acc-bot.py lines 49-51),
whose implementation is not part of this repository; the walk here follows the
spec's algorithm: from position pos, emit the window of up to chunkSize
characters starting at pos, and if that window ends before the end of the
text, advance by chunkSize - chunkOverlap and continue; the final window
(one reaching the end of the text) is emitted and the walk stops, so a page
no longer than chunkSize yields exactly one chunk.  The fuel argument makes
the recursion structural; text.length + 1 fuel is always enough when
chunkOverlap < chunkSize. -/
def splitWalkFuel (cs co src : Nat) (t : List Char) : Nat → Nat → List Chunk
  | 0, _ => []
  | fuel + 1, pos =>
      if pos + cs < t.length then
        ⟨src, pos, (t.drop pos).take cs⟩ :: splitWalkFuel cs co src t fuel (pos + (cs - co))
      else
        [⟨src, pos, (t.drop pos).take cs⟩]

/-- Modelled from the spec: split one page record (at position src in the
corpus) into its chunks. -/
def splitPage (cs co src : Nat) (t : List Char) : List Chunk :=
  splitWalkFuel cs co src t (t.length + 1) 0

/-- Modelled from the spec: split every page of the corpus independently, in
order, numbering pages from n. -/
def splitAll (cs co : Nat) : Nat → List (List Char) → List Chunk
  | _, [] => []
  | n, p :: ps => splitPage cs co n p ++ splitAll cs co (n + 1) ps

/-- Modelled from the spec: the Corpus Splitter entry point
(split_documents at src/acc-bot.py line 53).  An overlap that is not smaller
than the chunk size is a configuration error, fatal before any service
call. -/
def split_documents (cs co : Nat) (pages : List (List Char)) :
    Except PipelineError (List Chunk) :=
  if co < cs then .ok (splitAll cs co 0 pages) else .error .invalidSplitConfig

/-- Embedding of the ingestion part of setup (src/acc-bot.py lines 42-58):
read every document, split with chunk_size=1000 and chunk_overlap=200, and
submit the split corpus to the indexing service (Chroma.from_documents,
modelled as the abstract fromDocuments) exactly once.  There is no exception
handling around the submission in the source — the RateLimitError import on
line 12 is never used — so a service error propagates out of setup. -/
def setup (fs : FS) (load : String → List (List Char))
    (fromDocuments : List Chunk → Except PipelineError (List Chunk)) :
    Except PipelineError (List Chunk) :=
  match read_all_docs fs load "documents" with
  | .error e => .error e
  | .ok docs =>
      match split_documents 1000 200 docs with
      | .error e => .error e
      | .ok split_docs => fromDocuments split_docs

/-- Model of Python str.strip(): remove leading and trailing whitespace
(strings are modelled as lists of characters throughout the console loop,
src/acc-bot.py line 99). -/
def pyStrip (s : List Char) : List Char :=
  ((s.dropWhile Char.isWhitespace).reverse.dropWhile Char.isWhitespace).reverse

/-- Model of Python str.lower() (src/acc-bot.py line 101). -/
def pyLower (s : List Char) : List Char := s.map Char.toLower

/-- Embedding of format_bot (src/acc-bot.py lines 79-82): the colorama
escape sequences and the fixed decorative "Bot: " marker around the text. -/
def format_bot (x : List Char) : List Char :=
  "\x1b[34m".toList ++ "Bot: ".toList ++ "\x1b[0m".toList ++ x ++ "\x1b[39m".toList

/-- Embedding of format_user (src/acc-bot.py lines 85-88). -/
def format_user (x : List Char) : List Char :=
  "\x1b[32m".toList ++ "User: ".toList ++ "\x1b[0m".toList ++ x ++ "\x1b[39m".toList

/-- What a run of the console loop produces: the questions forwarded to the
query pipeline in order, the lines printed in order (the per-question prompt
written by input() is observability only and is not recorded), and whether
the loop terminated by the quit command (as opposed to exhausting the
modelled input script). -/
structure ReplTrace where
  forwarded : List (List Char)
  printed : List (List Char)
  terminated : Bool
  deriving DecidableEq, Repr

/-- Embedding of the read-eval-print loop of the main block (src/acc-bot.py
lines 98-106), run on a finite script of input lines: each line is stripped;
if its lowercase form is "q" the loop breaks and the farewell line 106 is
printed; otherwise the stripped line is forwarded to rag_chain.invoke
(modelled as the abstract answer function) and the formatted answer is
printed. -/
def consoleLoop (answer : List Char → List Char) : List (List Char) → ReplTrace
  | [] => ⟨[], [], false⟩
  | line :: rest =>
      let query := pyStrip line
      if pyLower query = "q".toList then
        ⟨[], [format_bot "Righto, see you later!".toList], true⟩
      else
        let t := consoleLoop answer rest
        ⟨query :: t.forwarded, format_bot (answer query) :: t.printed, t.terminated⟩

/-- Embedding of the main block (src/acc-bot.py lines 91-106): run setup, and
only if it succeeds enter the console loop; an error during setup propagates
and the prompt loop never starts. -/
def mainRun (fs : FS) (load : String → List (List Char))
    (fromDocuments : List Chunk → Except PipelineError (List Chunk))
    (answer : List Char → List Char) (inputs : List (List Char)) :
    Except PipelineError ReplTrace :=
  match setup fs load fromDocuments with
  | .error e => .error e
  | .ok _ => .ok (consoleLoop answer inputs)

/-- Service stub for exercising setup: accepts a submission iff it has at most
K chunks, otherwise reports the rate limit; on success the committed corpus is
exactly the submitted one. -/
def submitCap (K : Nat) : List Chunk → Except PipelineError (List Chunk) :=
  fun c => if c.length ≤ K then .ok c else .error .rateLimit

/-- Service stub that reports the rate limit on every submission. -/
def alwaysReject : List Chunk → Except PipelineError (List Chunk) :=
  fun _ => .error .rateLimit

/-- A filesystem with a documents directory holding one document file. -/
def fsOneDoc : FS :=
  ⟨fun d => if d = "documents" then some ["doc.pdf"] else none, fun _ => true⟩

/-- A loader that extracts one hundred one-character pages from any file, so
the corpus submitted by setup has exactly one hundred chunks. -/
def load100 : String → List (List Char) := fun _ => List.replicate 100 ['a']

/-- A loader that extracts a single one-character page from any file. -/
def load1 : String → List (List Char) := fun _ => [['a']]

/-- A filesystem on which no directory exists. -/
def fsNone : FS := ⟨fun _ => none, fun _ => false⟩

/-- A filesystem with a directory holding one regular file and one
subdirectory. -/
def fsTwo : FS :=
  ⟨fun d => if d = "docs" then some ["a.pdf", "sub"] else none,
   fun p => p == "docs/a.pdf"⟩

/-- Source order on chunks: earlier page first, and within a page earlier
start offset first. -/
def chunkOrd (a b : Chunk) : Prop :=
  a.source < b.source ∨ (a.source = b.source ∧ a.startOffset < b.startOffset)

theorem splitWalkFuel_get_aux (cs co s : Nat) (t : List Char) :
    ∀ (i fuel pos : Nat) (c : Chunk),
      (splitWalkFuel cs co s t fuel pos).get? i = some c →
      c = ⟨s, pos + i * (cs - co), (t.drop (pos + i * (cs - co))).take cs⟩ := by
  intro i
  induction i with
  | zero =>
      intro fuel pos c hc
      cases fuel with
      | zero => simp [splitWalkFuel] at hc
      | succ f =>
          by_cases h : pos + cs < t.length <;>
            simp_all [splitWalkFuel, h]
  | succ i ih =>
      intro fuel pos c hc
      cases fuel with
      | zero => simp [splitWalkFuel] at hc
      | succ f =>
          by_cases h : pos + cs < t.length
          · simp only [splitWalkFuel, if_pos h, List.get?_cons_succ] at hc
            have harith : pos + (cs - co) + i * (cs - co) = pos + (i + 1) * (cs - co) := by
              have hall : ∀ k : Nat, pos + k + i * k = pos + (i + 1) * k := by
                intro k; ring
              exact hall (cs - co)
            rw [ih f (pos + (cs - co)) c hc, harith]
          · simp only [splitWalkFuel, if_neg h] at hc
            simp at hc

theorem splitWalkFuel_get (cs co s : Nat) (t : List Char) (i fuel pos : Nat)
    (hi : i < (splitWalkFuel cs co s t fuel pos).length) :
    (splitWalkFuel cs co s t fuel pos).get ⟨i, hi⟩ =
      ⟨s, pos + i * (cs - co), (t.drop (pos + i * (cs - co))).take cs⟩ :=
  splitWalkFuel_get_aux cs co s t i fuel pos _ (List.get?_eq_get hi)

theorem splitWalkFuel_mem (cs co s : Nat) (t : List Char) :
    ∀ (fuel pos : Nat) (c : Chunk), c ∈ splitWalkFuel cs co s t fuel pos →
      c.source = s ∧ pos ≤ c.startOffset := by
  intro fuel
  induction fuel with
  | zero => intro pos c hc; simp [splitWalkFuel] at hc
  | succ f ih =>
      intro pos c hc
      by_cases h : pos + cs < t.length
      · simp only [splitWalkFuel, if_pos h, List.mem_cons] at hc
        rcases hc with rfl | hc
        · exact ⟨rfl, Nat.le_refl _⟩
        · rcases ih (pos + (cs - co)) c hc with ⟨h1, h2⟩
          exact ⟨h1, by omega⟩
      · simp only [splitWalkFuel, if_neg h, List.mem_singleton] at hc
        subst hc
        exact ⟨rfl, Nat.le_refl _⟩

theorem splitWalkFuel_pairwise (cs co s : Nat) (hco : co < cs) (t : List Char) :
    ∀ (fuel pos : Nat),
      (splitWalkFuel cs co s t fuel pos).Pairwise
        fun a b => a.startOffset < b.startOffset := by
  intro fuel
  induction fuel with
  | zero => intro pos; simp [splitWalkFuel]
  | succ f ih =>
      intro pos
      by_cases h : pos + cs < t.length
      · simp only [splitWalkFuel, if_pos h]
        refine List.Pairwise.cons ?_ (ih (pos + (cs - co)))
        intro b hb
        have hmem := (splitWalkFuel_mem cs co s t f (pos + (cs - co)) b hb).2
        simp only
        omega
      · simp [splitWalkFuel, if_neg h]

theorem splitWalkFuel_cover (cs co s : Nat) (hco : co < cs) (t : List Char) :
    ∀ (fuel pos : Nat), t.length - pos < fuel →
      ∀ j, pos ≤ j → j < t.length →
        ∃ c ∈ splitWalkFuel cs co s t fuel pos,
          c.startOffset ≤ j ∧ j < c.startOffset + c.text.length := by
  intro fuel
  induction fuel with
  | zero => intro pos h; omega
  | succ f ih =>
      intro pos hfuel j hpj hjt
      by_cases h : pos + cs < t.length
      · by_cases hj : j < pos + cs
        · refine ⟨⟨s, pos, (t.drop pos).take cs⟩, ?_, hpj, ?_⟩
          · simp [splitWalkFuel, if_pos h]
          · have hlen : ((t.drop pos).take cs).length = cs := by
              rw [List.length_take, List.length_drop]
              exact Nat.min_eq_left (by omega)
            simp only [hlen]
            omega
        · rcases ih (pos + (cs - co)) (by omega) j (by omega) hjt with ⟨c, hc, h1, h2⟩
          refine ⟨c, ?_, h1, h2⟩
          simp only [splitWalkFuel, if_pos h, List.mem_cons]
          exact Or.inr hc
      · refine ⟨⟨s, pos, (t.drop pos).take cs⟩, ?_, hpj, ?_⟩
        · simp [splitWalkFuel, if_neg h]
        · have hlen : ((t.drop pos).take cs).length = t.length - pos := by
            rw [List.length_take, List.length_drop]
            exact Nat.min_eq_right (by omega)
          simp only [hlen]
          omega

theorem splitPage_source (cs co s : Nat) (t : List Char) (c : Chunk)
    (hc : c ∈ splitPage cs co s t) : c.source = s :=
  (splitWalkFuel_mem cs co s t (t.length + 1) 0 c hc).1

theorem splitAll_source_ge (cs co : Nat) :
    ∀ (ps : List (List Char)) (n : Nat) (c : Chunk),
      c ∈ splitAll cs co n ps → n ≤ c.source := by
  intro ps
  induction ps with
  | nil => intro n c hc; simp [splitAll] at hc
  | cons p ps ih =>
      intro n c hc
      simp only [splitAll, List.mem_append] at hc
      rcases hc with hc | hc
      · have := splitPage_source cs co n p c hc
        omega
      · have := ih (n + 1) c hc
        omega

theorem splitAll_pairwise (cs co : Nat) (hco : co < cs) :
    ∀ (ps : List (List Char)) (n : Nat), (splitAll cs co n ps).Pairwise chunkOrd := by
  intro ps
  induction ps with
  | nil => intro n; simp [splitAll]
  | cons p ps ih =>
      intro n
      simp only [splitAll]
      rw [List.pairwise_append]
      refine ⟨?_, ih (n + 1), ?_⟩
      · have hp := splitWalkFuel_pairwise cs co n hco p (p.length + 1) 0
        refine List.Pairwise.imp_of_mem ?_ hp
        intro a b ha hb hab
        have hsa := (splitWalkFuel_mem cs co n p (p.length + 1) 0 a ha).1
        have hsb := (splitWalkFuel_mem cs co n p (p.length + 1) 0 b hb).1
        exact Or.inr ⟨hsa.trans hsb.symm, hab⟩
      · intro a ha b hb
        have hsa := splitPage_source cs co n p a ha
        have hsb := splitAll_source_ge cs co ps (n + 1) b hb
        exact Or.inl (by omega)

theorem splitAll_cover (cs co : Nat) (hco : co < cs) :
    ∀ (ps : List (List Char)) (n pi : Nat) (hpi : pi < ps.length) (j : Nat),
      j < (ps.get ⟨pi, hpi⟩).length →
      ∃ c ∈ splitAll cs co n ps, c.source = n + pi ∧ c.startOffset ≤ j ∧
        j < c.startOffset + c.text.length := by
  intro ps
  induction ps with
  | nil => intro n pi hpi; simp at hpi
  | cons p ps ih =>
      intro n pi hpi j hj
      cases pi with
      | zero =>
          have hj0 : j < p.length := by simpa using hj
          rcases splitWalkFuel_cover cs co n hco p (p.length + 1) 0 (by omega) j
              (Nat.zero_le _) hj0 with ⟨c, hc, h1, h2⟩
          have hs := (splitWalkFuel_mem cs co n p (p.length + 1) 0 c hc).1
          refine ⟨c, ?_, by omega, h1, h2⟩
          simp only [splitAll, List.mem_append]
          exact Or.inl hc
      | succ pi =>
          have hpi2 : pi < ps.length := by simpa using hpi
          have hj2 : j < (ps.get ⟨pi, hpi2⟩).length := by simpa using hj
          rcases ih (n + 1) pi hpi2 j hj2 with ⟨c, hc, hs, h1, h2⟩
          refine ⟨c, ?_, by omega, h1, h2⟩
          simp only [splitAll, List.mem_append]
          exact Or.inr hc

theorem splitAll_eq_flatten (cs co : Nat) :
    ∀ (ps : List (List Char)) (n : Nat),
      splitAll cs co n ps =
        ((List.enumFrom n ps).map fun x => splitPage cs co x.1 x.2).flatten := by
  intro ps
  induction ps with
  | nil => intro n; simp [splitAll]
  | cons p ps ih => intro n; simp [splitAll, List.enumFrom, ih (n + 1)]

theorem read_all_docs_go_eq {α : Type} (load : String → List α) :
    ∀ (ds : List String) (acc : List α),
      read_all_docs_go load ds acc = acc ++ (ds.map load).flatten := by
  intro ds
  induction ds with
  | nil => intro acc; simp [read_all_docs_go]
  | cons d ds ih => intro acc; simp [read_all_docs_go, ih, List.append_assoc]

/-- C1: the claim says that on a capacity error the indexer discards the
second half of the corpus and retries until a submission of the largest
length of the form floor(N/2^i) that fits succeeds (for N=100, K=30 this
would be 25).  The code does no such thing: setup submits the split corpus
to the service exactly once with no exception handling (src/acc-bot.py lines
56-58; the RateLimitError import on line 12 is never used), so with a corpus
of 100 one-chunk pages and a service accepting at most 30 chunks the run
fails with the propagated rate-limit error instead of succeeding with 25
chunks. -/
theorem claim_C1_no_halving_retry :
    setup fsOneDoc load100 (submitCap 30) = .error .rateLimit := rfl

/-- C2: the claim says that when every submission attempt raises a capacity
error the corpus is halved repeatedly and, once empty, the indexer fails with
IndexingExhaustedError.  In the code there is no retry and no such error:
with a service that always reports the rate limit, setup fails immediately
with the propagated rate-limit error on the first and only submission, the
corpus never being reduced at all. -/
theorem claim_C2_no_exhaustion_error :
    setup fsOneDoc load1 alwaysReject = .error .rateLimit := rfl

/-- C3: the splitter walks each page independently, chunk i of a page starts
at offset i*(chunkSize-chunkOverlap), its text is the window of up to
chunkSize characters at that offset, and a page no longer than chunkSize
yields exactly one chunk equal to the full page text. -/
theorem claim_C3_splitter_walk (cs co : Nat) (hco : co < cs) (t : List Char) :
    (∀ (i : Nat) (hi : i < (splitPage cs co 0 t).length),
        ((splitPage cs co 0 t).get ⟨i, hi⟩).startOffset = i * (cs - co) ∧
        ((splitPage cs co 0 t).get ⟨i, hi⟩).text = (t.drop (i * (cs - co))).take cs ∧
        ((splitPage cs co 0 t).get ⟨i, hi⟩).text.length ≤ cs) ∧
    (t.length ≤ cs → splitPage cs co 0 t = [⟨0, 0, t⟩]) ∧
    (∀ (ps : List (List Char)) (n : Nat),
        splitAll cs co n ps =
          ((List.enumFrom n ps).map fun x => splitPage cs co x.1 x.2).flatten) := by
  refine ⟨?_, ?_, fun ps n => splitAll_eq_flatten cs co ps n⟩
  · intro i hi
    have h := splitWalkFuel_get cs co 0 t i (t.length + 1) 0 hi
    have h0 : (0 : Nat) + i * (cs - co) = i * (cs - co) := Nat.zero_add _
    rw [h0] at h
    refine ⟨?_, ?_, ?_⟩
    · rw [show (splitPage cs co 0 t).get ⟨i, hi⟩ =
            (splitWalkFuel cs co 0 t (t.length + 1) 0).get ⟨i, hi⟩ from rfl, h]
    · rw [show (splitPage cs co 0 t).get ⟨i, hi⟩ =
            (splitWalkFuel cs co 0 t (t.length + 1) 0).get ⟨i, hi⟩ from rfl, h]
    · rw [show (splitPage cs co 0 t).get ⟨i, hi⟩ =
            (splitWalkFuel cs co 0 t (t.length + 1) 0).get ⟨i, hi⟩ from rfl, h]
      simp only [List.length_take, List.length_drop]
      exact Nat.min_le_left _ _
  · intro hle
    have hc : ¬ (cs < t.length) := by omega
    simp [splitPage, splitWalkFuel, hc, List.take_of_length_le hle]

/-- Witness for C3 at chunkSize 3, chunkOverlap 1 on a two-character page:
the page is no longer than the chunk size, so it yields exactly one chunk
equal to the full page text. -/
theorem claim_C3_witness :
    splitPage 3 1 0 "ab".toList = [⟨0, 0, "ab".toList⟩] :=
  (claim_C3_splitter_walk 3 1 (by decide) "ab".toList).2.1 (by decide)

/-- C4: for every page sequence and parameters with chunkOverlap < chunkSize,
every character of every page is covered by at least one chunk drawn from
that page, the chunk sequence is sorted in source order (earlier pages first,
increasing start offsets within a page — no reordering), and the splitter
accepts the configuration. -/
theorem claim_C4_coverage_order (cs co : Nat) (hco : co < cs) (ps : List (List Char)) :
    (∀ (pi : Nat) (hpi : pi < ps.length) (j : Nat), j < (ps.get ⟨pi, hpi⟩).length →
        ∃ c ∈ splitAll cs co 0 ps, c.source = pi ∧ c.startOffset ≤ j ∧
          j < c.startOffset + c.text.length) ∧
    (splitAll cs co 0 ps).Pairwise chunkOrd ∧
    split_documents cs co ps = .ok (splitAll cs co 0 ps) := by
  refine ⟨?_, splitAll_pairwise cs co hco ps 0, by simp [split_documents, hco]⟩
  intro pi hpi j hj
  have h := splitAll_cover cs co hco ps 0 pi hpi j hj
  simpa using h

/-- Witness for C4: in the page "abc" split with chunkSize 2 and overlap 1,
the character at index 2 is covered by a chunk of that page. -/
theorem claim_C4_witness :
    ∃ c ∈ splitAll 2 1 0 [['a', 'b', 'c']], c.source = 0 ∧ c.startOffset ≤ 2 ∧
      2 < c.startOffset + c.text.length :=
  (claim_C4_coverage_order 2 1 (by decide) [['a', 'b', 'c']]).1 0 (by decide) 2 (by decide)

/-- C5: the console loop strips each input line; a line whose stripped,
lowercased form is "q" terminates the loop at once with the farewell message
and forwards nothing, any other line is forwarded (as its stripped form,
which the code computes before the quit test) and its answer is printed with
the fixed decorative marker; in particular the script ["hello", "q"] forwards
exactly the one question "hello" and terminates, and "Q" and " q " also
terminate. -/
theorem claim_C5_console (answer : List Char → List Char) :
    (∀ (line : List Char) (rest : List (List Char)),
        pyLower (pyStrip line) = "q".toList →
        consoleLoop answer (line :: rest) =
          ⟨[], [format_bot "Righto, see you later!".toList], true⟩) ∧
    (∀ (line : List Char) (rest : List (List Char)),
        pyLower (pyStrip line) ≠ "q".toList →
        consoleLoop answer (line :: rest) =
          ⟨pyStrip line :: (consoleLoop answer rest).forwarded,
           format_bot (answer (pyStrip line)) :: (consoleLoop answer rest).printed,
           (consoleLoop answer rest).terminated⟩) ∧
    (consoleLoop answer ["hello".toList, "q".toList]).forwarded = ["hello".toList] ∧
    (consoleLoop answer ["hello".toList, "q".toList]).terminated = true ∧
    (consoleLoop answer ["Q".toList]).terminated = true ∧
    (consoleLoop answer [" q ".toList]).terminated = true := by
  refine ⟨?_, ?_, rfl, rfl, rfl, rfl⟩
  · intro line rest h
    simp [consoleLoop, h]
  · intro line rest h
    have h2 : ¬ pyLower (pyStrip line) = ['q'] := h
    simp [consoleLoop, h2]

/-- Witness for C5: on the single whitespace-padded quit line " q " the loop
terminates with the farewell and forwards nothing. -/
theorem claim_C5_witness :
    consoleLoop id [" q ".toList] =
      ⟨[], [format_bot "Righto, see you later!".toList], true⟩ :=
  (claim_C5_console id).1 " q ".toList [] (by decide)

/-- C6: when the directory exists, the locator returns exactly the joined
paths of the listed entries that are regular files, in listing order
(consulting only direct entries, no recursion), and when no listed entry is a
regular file it returns the empty list. -/
theorem claim_C6_locator_exact (fs : FS) (dir : String) (names : List String)
    (h : fs.listdir dir = some names) :
    discover_documents fs dir =
      .ok ((names.filter fun f => fs.isfile (joinPath dir f)).map fun f => joinPath dir f) ∧
    (∀ p : String,
        p ∈ (names.filter fun f => fs.isfile (joinPath dir f)).map (fun f => joinPath dir f) ↔
          ∃ f ∈ names, fs.isfile (joinPath dir f) = true ∧ p = joinPath dir f) ∧
    ((∀ f ∈ names, fs.isfile (joinPath dir f) = false) →
        discover_documents fs dir = .ok []) := by
  refine ⟨by simp [discover_documents, h], ?_, ?_⟩
  · intro p
    simp only [List.mem_map, List.mem_filter]
    constructor
    · rintro ⟨f, ⟨hf, hfile⟩, rfl⟩
      exact ⟨f, hf, hfile, rfl⟩
    · rintro ⟨f, hf, hfile, rfl⟩
      exact ⟨f, ⟨hf, hfile⟩, rfl⟩
  · intro hall
    have hnil : (names.filter fun f => fs.isfile (joinPath dir f)) = [] := by
      rw [List.filter_eq_nil_iff]
      intro a ha
      simp [hall a ha]
    simp [discover_documents, h, hnil]

/-- Witness for C6: on a directory listing one regular file and one
non-file entry, the locator returns exactly the file's path. -/
theorem claim_C6_witness :
    discover_documents fsTwo "docs" = .ok ["docs/a.pdf"] :=
  (claim_C6_locator_exact fsTwo "docs" ["a.pdf", "sub"] rfl).1

/-- C7: when the path is not an existing directory the locator fails with the
directory-not-found error (the embedding is a pure function of the modelled
filesystem, so it has no side effects), and when that path is the configured
"documents" directory the whole main run fails during setup with the same
error — the prompt loop never runs and produces no trace. -/
theorem claim_C7_missing_directory (fs : FS) (dir : String) (h : fs.listdir dir = none) :
    discover_documents fs dir = .error .directoryNotFound ∧
    (dir = "documents" →
      ∀ (load : String → List (List Char))
        (fromDocuments : List Chunk → Except PipelineError (List Chunk))
        (answer : List Char → List Char) (inputs : List (List Char)),
        mainRun fs load fromDocuments answer inputs = .error .directoryNotFound) := by
  have h1 : discover_documents fs dir = .error .directoryNotFound := by
    simp [discover_documents, h]
  refine ⟨h1, ?_⟩
  rintro rfl load fromDocuments answer inputs
  simp [mainRun, setup, read_all_docs, h1]

/-- Witness for C7: on a filesystem with no directories at all, the main run
fails with the directory-not-found error before the loop starts. -/
theorem claim_C7_witness :
    mainRun fsNone (fun _ => []) (fun c => .ok c) id ["hi".toList] =
      .error .directoryNotFound :=
  (claim_C7_missing_directory fsNone "documents" rfl).2 rfl (fun _ => [])
    (fun c => .ok c) id ["hi".toList]

/-- C8: the splitter is a deterministic function of its inputs — splitting
equal page sequences with equal parameters yields equal chunk sequences. -/
theorem claim_C8_deterministic (cs co : Nat) (ps qs : List (List Char)) (h : ps = qs) :
    split_documents cs co ps = split_documents cs co qs := by
  rw [h]

/-- Witness for C8 at a concrete page sequence and parameters. -/
theorem claim_C8_witness :
    split_documents 3 1 [['a', 'b']] = split_documents 3 1 [['a', 'b']] :=
  claim_C8_deterministic 3 1 [['a', 'b']] [['a', 'b']] rfl

/-- C9: a successful read of all documents yields exactly the concatenation
of the per-document page sequences in discovery order, each document's own
page order preserved and no interleaving — the result is the flattening of
the page lists of the discovered documents. -/
theorem claim_C9_corpus_order {α : Type} (fs : FS) (load : String → List α)
    (dir : String) (l : List α) (h : read_all_docs fs load dir = .ok l) :
    ∃ docs, discover_documents fs dir = .ok docs ∧ l = (docs.map load).flatten := by
  unfold read_all_docs at h
  cases hd : discover_documents fs dir with
  | error e => rw [hd] at h; exact absurd h (by simp)
  | ok docs =>
      rw [hd] at h
      simp only [Except.ok.injEq] at h
      refine ⟨docs, rfl, ?_⟩
      rw [← h, read_all_docs_go_eq load docs []]
      simp

/-- Witness for C9: a directory with one document whose loader returns the
path itself as a single page. -/
theorem claim_C9_witness :
    ∃ docs, discover_documents fsTwo "docs" = .ok docs ∧
      ["docs/a.pdf"] = (docs.map fun d => [d]).flatten :=
  claim_C9_corpus_order fsTwo (fun d => [d]) "docs" ["docs/a.pdf"] rfl

/-- C10: a line that strips to the empty string does not terminate and is not
skipped — the empty string is forwarded as a question — and inputs such as
"quit" or "q!" whose stripped lowercase form is not exactly "q" are likewise
forwarded rather than terminating the loop. -/
theorem claim_C10_near_quit (answer : List Char → List Char) :
    (∀ (line : List Char) (rest : List (List Char)), pyStrip line = [] →
        consoleLoop answer (line :: rest) =
          ⟨[] :: (consoleLoop answer rest).forwarded,
           format_bot (answer []) :: (consoleLoop answer rest).printed,
           (consoleLoop answer rest).terminated⟩) ∧
    consoleLoop answer ["quit".toList] =
      ⟨["quit".toList], [format_bot (answer "quit".toList)], false⟩ ∧
    consoleLoop answer ["q!".toList] =
      ⟨["q!".toList], [format_bot (answer "q!".toList)], false⟩ := by
  refine ⟨?_, rfl, rfl⟩
  intro line rest h
  simp [consoleLoop, h, pyLower]

/-- Witness for C10: a whitespace-only line forwards the empty question and
does not terminate the loop. -/
theorem claim_C10_witness :
    consoleLoop id ["  ".toList] = ⟨[[]], [format_bot []], false⟩ :=
  (claim_C10_near_quit id).1 "  ".toList [] (by decide)

end AccBot
